import Mathlib

set_option maxHeartbeats 1000000

/-!
Verification development for the LimbusLocalizeRU build scripts.

The definitions below are shallow embeddings of the Python sources:
  scripts/utils.py            (keyword shorthand substitution, release fetch)
  scripts/models.py           (readme data model, GitHubRelease.make_readme)
  scripts/make_dist.py        (localization scan loop, per-file dist step)
  scripts/update_submodules.py (get_env_variables)
File system / network effects are made explicit as function parameters.
-/

/-- The single-quote character U+0027, written via its code point. -/
def squote : Char := Char.ofNat 39

/-- The character class `[a-zA-Z0-9_]` of the KEYWORD_SHORTHAND regex
(scripts/utils.py line 7). `Char.isAlpha`/`Char.isDigit` are ASCII-only,
matching the Python class exactly. -/
def isWordChar (c : Char) : Bool := c.isAlpha || c.isDigit || c == '_'

/-- The keyword color table, loaded from config: an association list of
keyword id to color string (first binding wins, as in a Python dict). -/
abbrev KeywordColors := List (String × String)

/-- Python dict membership and subscript: first matching binding. -/
def lookupTable (kc : KeywordColors) (k : String) : Option String :=
  match kc with
  | [] => none
  | p :: rest => if p.1 == k then some p.2 else lookupTable rest k

/-- Scanner for the non-greedy `(?P<text>.+?)` followed by `'\]` in
KEYWORD_SHORTHAND, once at least one text character has been consumed:
at each position, if the next two characters are the closing quote and
bracket the (shortest) match ends; a newline cannot be matched by `.`;
otherwise the character joins the text span. -/
def takeTextAux : List Char → Option (List Char × List Char)
  | c1 :: c2 :: rest =>
    if c1 == squote && c2 == ']' then some ([], rest)
    else if c1 == '\n' then none
    else
      match takeTextAux (c2 :: rest) with
      | some (t, r) => some (c1 :: t, r)
      | none => none
  | _ => none

/-- The full `(?P<text>.+?)'\]` scan: `+?` forces a first text character
(which `.` requires to be distinct from a newline), then the shortest
closing position is found by `takeTextAux`. -/
def takeText : List Char → Option (List Char × List Char)
  | [] => none
  | c :: rest =>
    if c == '\n' then none
    else
      match takeTextAux rest with
      | some (t, r) => some (c :: t, r)
      | none => none

/-- One attempted match of KEYWORD_SHORTHAND
`\[(?P<keyword_id>[a-zA-Z0-9_]+?)\:'(?P<text>.+?)'\]` at the head of the
character list. Because the id class contains neither `:` nor the quote,
the non-greedy id is exactly the maximal run of word characters, which
must be non-empty and immediately followed by `:` and the quote. On
success returns the two captured groups and the remainder after `']`. -/
def matchShorthand (cs : List Char) : Option (String × String × List Char) :=
  match cs with
  | '[' :: rest =>
    let idChars := rest.takeWhile isWordChar
    match rest.dropWhile isWordChar with
    | ':' :: c :: rest2 =>
      if idChars.isEmpty = false && c == squote then
        match takeText rest2 with
        | some (t, r) => some (⟨idChars⟩, ⟨t⟩, r)
        | none => none
      else none
    | _ => none
  | _ => none

/-- The replacement string built by `make_replacement` in
`replace_shorthands` (scripts/utils.py lines 100-109). -/
def shorthand_markup (keyword_id color text : String) : String :=
  "<sprite name=\"" ++ keyword_id ++ "\">" ++ "<color=" ++ color ++ ">" ++
    "<u>" ++ "<link=\"" ++ keyword_id ++ "\">" ++ text ++ "</link>" ++
    "</u>" ++ "</color>"

/-- `make_replacement` (scripts/utils.py lines 90-109): looks the id up in
the color table; on a miss prints a diagnostic naming the id and falls
back to the fixed color. The second component records the printed
diagnostics of the call. -/
def make_replacement (keyword_colors : KeywordColors) (keyword_id text : String) :
    String × List String :=
  match lookupTable keyword_colors keyword_id with
  | some color => (shorthand_markup keyword_id color text, [])
  | none => (shorthand_markup keyword_id ("#f8c200") text, [keyword_id])

/-- Fuelled scanning loop of `KEYWORD_SHORTHAND.sub(make_replacement, text)`:
at each position try to match; on a match emit the replacement and resume
after the match; otherwise copy one character. The fuel only needs to
dominate the list length (each step consumes at least one character), so
the wrapper below runs it with the length itself. Second component is the
concatenated diagnostics in emission order. -/
def subAuxF (kc : KeywordColors) : Nat → List Char → List Char × List String
  | 0, l => (l, [])
  | _ + 1, [] => ([], [])
  | fuel + 1, c :: cs =>
    match matchShorthand (c :: cs) with
    | some (kid, txt, rest) =>
      let repl := make_replacement kc kid txt
      let r := subAuxF kc fuel rest
      (repl.1.data ++ r.1, repl.2 ++ r.2)
    | none =>
      let r := subAuxF kc fuel cs
      (c :: r.1, r.2)

/-- The scanning loop at its canonical fuel. -/
def subAux (kc : KeywordColors) (l : List Char) : List Char × List String :=
  subAuxF kc l.length l

/-- `replace_shorthands` (scripts/utils.py lines 89-111): regex
substitution of every shorthand occurrence. -/
def replace_shorthands (text : String) (keyword_colors : KeywordColors) : String :=
  ⟨(subAux keyword_colors text.data).1⟩

/-- The diagnostics printed by a `replace_shorthands` call, in order. -/
def replace_shorthands_diags (text : String) (keyword_colors : KeywordColors) :
    List String :=
  (subAux keyword_colors text.data).2

/-- A character list with no occurrence of the shorthand pattern: the
regex fails to match at every scan position. -/
def cleanChars : List Char → Bool
  | [] => true
  | c :: cs => (matchShorthand (c :: cs)).isNone && cleanChars cs

/-! JSON documents as loaded by `json.loads(..., object_pairs_hook=OrderedDict)`:
order-preserving objects, arrays, and scalar leaves. A mutual inductive keeps
all recursion structural. Numbers are modelled as integers (no claim involves
floating point). -/

mutual

inductive Json where
  | str : String → Json
  | num : Int → Json
  | jbool : Bool → Json
  | null : Json
  | arr : JsonArr → Json
  | obj : JsonObj → Json

inductive JsonArr where
  | nil : JsonArr
  | cons : Json → JsonArr → JsonArr

inductive JsonObj where
  | nil : JsonObj
  | cons : String → Json → JsonObj → JsonObj

end

mutual

/-- `convert_keywords` (scripts/utils.py lines 114-124) on a top-level
mapping or sequence: iterate the items; containers are recursed into,
string values are rewritten by `replace_shorthands`, other scalars are
left alone. A scalar at top level is returned unchanged (the Python
function is only ever applied to a mapping or sequence). -/
def convert_keywords (data : Json) (kc : KeywordColors) : Json :=
  match data with
  | .obj kvs => .obj (convertObj kvs kc)
  | .arr xs => .arr (convertArr xs kc)
  | d => d

/-- The loop body of `convert_keywords` over a mapping's items. -/
def convertObj (kvs : JsonObj) (kc : KeywordColors) : JsonObj :=
  match kvs with
  | .nil => .nil
  | .cons k v rest => .cons k (convertValue v kc) (convertObj rest kc)

/-- The loop body of `convert_keywords` over a sequence's items. -/
def convertArr (xs : JsonArr) (kc : KeywordColors) : JsonArr :=
  match xs with
  | .nil => .nil
  | .cons v rest => .cons (convertValue v kc) (convertArr rest kc)

/-- Dispatch on one item value: recurse into containers, rewrite strings,
keep other scalars (scripts/utils.py lines 120-124). -/
def convertValue (v : Json) (kc : KeywordColors) : Json :=
  match v with
  | .obj kvs => .obj (convertObj kvs kc)
  | .arr xs => .arr (convertArr xs kc)
  | .str s => .str (replace_shorthands s kc)
  | d => d

end

mutual

/-- Same document shape: identical nesting structure, identical mapping keys
in identical order, identical sequence lengths, and identical non-string
scalar leaves; string leaves may differ. -/
def sameShape : Json → Json → Bool
  | .str _, .str _ => true
  | .num a, .num b => a == b
  | .jbool a, .jbool b => a == b
  | .null, .null => true
  | .arr xs, .arr ys => sameShapeArr xs ys
  | .obj xs, .obj ys => sameShapeObj xs ys
  | _, _ => false

def sameShapeArr : JsonArr → JsonArr → Bool
  | .nil, .nil => true
  | .cons x xs, .cons y ys => sameShape x y && sameShapeArr xs ys
  | _, _ => false

def sameShapeObj : JsonObj → JsonObj → Bool
  | .nil, .nil => true
  | .cons k1 v1 xs, .cons k2 v2 ys => k1 == k2 && sameShape v1 v2 && sameShapeObj xs ys
  | _, _ => false

end

mutual

/-- No string leaf of the document contains a shorthand occurrence. -/
def jsonClean : Json → Bool
  | .str s => cleanChars s.data
  | .arr xs => jsonCleanArr xs
  | .obj kvs => jsonCleanObj kvs
  | _ => true

def jsonCleanArr : JsonArr → Bool
  | .nil => true
  | .cons x xs => jsonClean x && jsonCleanArr xs

def jsonCleanObj : JsonObj → Bool
  | .nil => true
  | .cons _ v kvs => jsonClean v && jsonCleanObj kvs

end

/-! Readme data model (scripts/models.py). -/

/-- The concrete readme body element classes of scripts/models.py lines
7-51, as a closed sum: `ReadmeText`, `ReadmeSubTitle` (with optional
size), `ReadmeImage`, `ReadmeLink`. -/
inductive RBElem where
  | RText : String → RBElem
  | RSubTitle : String → Option Nat → RBElem
  | RImage : String → RBElem
  | RLink : String → Option String → RBElem
deriving DecidableEq

/-- `ReadmeBody` (scripts/models.py lines 54-59). -/
structure ReadmeBody where
  list : List RBElem
deriving DecidableEq

/-- `ReadmeData` (scripts/models.py lines 62-77); the start date is kept
as the opaque timestamp string it is rendered to. -/
structure ReadmeData where
  title : String
  text : ReadmeBody
  start_date : String
deriving DecidableEq

/-- The dictionary produced by `ReadmeData.export` (scripts/models.py
lines 67-77); the body serialization is kept structural. -/
structure Notice where
  id : Nat
  version : Nat
  type_ : Nat
  startDate : String
  endDate : String
  title_KR : String
  content_KR : ReadmeBody
deriving DecidableEq

/-- `ReadmeData.export(id_, type_)` (scripts/models.py lines 67-77). -/
def ReadmeData.export (d : ReadmeData) (id_ : Nat) (type_ : Nat) : Notice :=
  { id := id_
    version := 0
    type_ := type_
    startDate := d.start_date
    endDate := "2024-12-31T23:00:00.000Z"
    title_KR := d.title
    content_KR := d.text }

/-- `GitHubRelease` (scripts/models.py lines 80-83); the publish time is
kept as an opaque timestamp string. -/
structure GitHubRelease where
  name : String
  body : String
  published_at : String
deriving DecidableEq

/-- Python line-break characters recognised by `str.splitlines`. -/
def isLineBreak (c : Char) : Bool :=
  c == '\n' || c == '\r' || c == '\x0b' || c == '\x0c' ||
  c == '\x1c' || c == '\x1d' || c == '\x1e' || c == '\x85' ||
  c == '\u2028' || c == '\u2029'

/-- Accumulating scanner for `str.splitlines`: a line break ends the
current line, `\r\n` counts as a single break, and a break that ends the
string does not open a final empty line. -/
def splitlinesAux : List Char → List Char → List (List Char)
  | [], acc => [acc.reverse]
  | '\r' :: '\n' :: rest, acc =>
    match rest with
    | [] => [acc.reverse]
    | _ => acc.reverse :: splitlinesAux rest []
  | c :: rest, acc =>
    if isLineBreak c then
      match rest with
      | [] => [acc.reverse]
      | _ => acc.reverse :: splitlinesAux rest []
    else splitlinesAux rest (c :: acc)

/-- Python `str.splitlines` (an empty string yields no lines). -/
def splitlines (s : String) : List String :=
  match s.data with
  | [] => []
  | cs => (splitlinesAux cs []).map fun l => ⟨l⟩

/-- Python whitespace for `str.strip()` with no argument. -/
def pyIsSpace (c : Char) : Bool :=
  c == ' ' || c == '\t' || c == '\n' || c == '\r' || c == '\x0b' || c == '\x0c'

/-- Python `str.strip(chars)`: remove characters satisfying the predicate
from both ends. -/
def pyStrip (p : Char → Bool) (s : String) : String :=
  ⟨((s.data.dropWhile p).reverse.dropWhile p).reverse⟩

/-- Membership in the strip set `"# "` of scripts/models.py line 91. -/
def isHashOrSpace (c : Char) : Bool := c == '#' || c == ' '

/-- Whether a string starts with the character `#`. -/
def startsWithHash (s : String) : Bool :=
  match s.data with
  | '#' :: _ => true
  | _ => false

/-- The per-line conversion inside `GitHubRelease.make_readme`
(scripts/models.py lines 88-94): a line whose whitespace-stripped form
starts with `#` becomes a `ReadmeSubTitle` built from the line minus its
first character, stripped of `#` and space at both ends, with size 49;
any other line becomes a `ReadmeText` carrying the line verbatim. -/
def make_readme_line (line : String) : RBElem :=
  if startsWithHash (pyStrip pyIsSpace line) then
    .RSubTitle (pyStrip isHashOrSpace (String.drop line 1)) (some 49)
  else
    .RText line

/-- `GitHubRelease.make_readme` (scripts/models.py lines 85-100). -/
def GitHubRelease.make_readme (r : GitHubRelease) : ReadmeData :=
  { title := r.name
    text := ⟨(splitlines r.body).map make_readme_line⟩
    start_date := r.published_at }

/-- `get_github_releases` (scripts/utils.py lines 10-18) with the network
made explicit: the API returns the release list newest-first and the
function builds its result from the reversed enumeration `data[::-1]`,
i.e. oldest-first. -/
def get_github_releases (api_data : List GitHubRelease) : List GitHubRelease :=
  api_data.reverse

/-- Python `enumerate(xs, start)`. -/
def pyEnumerate (start : Nat) : List GitHubRelease → List (Nat × GitHubRelease)
  | [] => []
  | x :: xs => (start, x) :: pyEnumerate (start + 1) xs

/-- The notice list assembled by `dist_readme` (scripts/make_dist.py lines
119-138), with the template's pre-existing notice list and the two
network-derived readme blocks passed in explicitly: the contributors
notice is appended with id 1193 and type 1, the extra notice with id 1194
and type 1, then each release (enumerated oldest-first from 2911) is
exported with id `i + 1`, and the resulting per-release notices are
appended reversed. -/
def dist_readme_noticeList (template_notices : List Notice)
    (contributors extra : ReadmeData) (api_data : List GitHubRelease) : List Notice :=
  let l1 := template_notices ++ [contributors.export 1193 1]
  let l2 := l1 ++ [extra.export 1194 1]
  let releases_info := get_github_releases api_data
  let releases_notices :=
    (pyEnumerate 2911 releases_info).map fun p => (p.2.make_readme).export (p.1 + 1) 0
  l2 ++ releases_notices.reverse

/-! The localization scan (scripts/make_dist.py lines 36-73) with the file
system made explicit: each discovered `*.json` file is an abstract path
plus the verdict of `validate_json_file` on its content. -/

/-- One file discovered by the glob, with the outcome of
`validate_json_file` (scripts/make_dist.py lines 27-33) on its bytes. -/
structure LocFile where
  path : String
  validJson : Bool
deriving DecidableEq

/-- `FileMetaData` (scripts/models.py lines 103-105). -/
structure FileMetaData where
  path : String
  checksum : String
deriving DecidableEq

/-- Python `sep.join(xs)`. -/
def pyJoin (sep : String) : List String → String
  | [] => ""
  | [x] => x
  | x :: xs => x ++ sep ++ pyJoin sep xs

/-- The scan loop of `dist_localization_data` (scripts/make_dist.py lines
43-70): files are visited in glob order; an invalid file is appended to
`invalid_files` and skipped, a valid file is processed and its path
recorded (standing for the copy plus manifest append). Returns the final
`(invalid_files, processed paths)` pair. -/
def scanLoop : List LocFile → List String → List String → List String × List String
  | [], invalid, processed => (invalid, processed)
  | f :: rest, invalid, processed =>
    if f.validJson then scanLoop rest invalid (processed ++ [f.path])
    else scanLoop rest (invalid ++ [f.path]) processed

/-- `dist_localization_data` (scripts/make_dist.py lines 36-73) over the
abstract file list: the first component is the list of files actually
processed (copied and appended to the manifest) before the function
returns, the second the `ValueError` message raised at the end when any
invalid file was found. -/
def dist_localization_data (files : List LocFile) : List String × Option String :=
  let r := scanLoop files [] []
  (r.2,
   if r.1.isEmpty then none
   else some ("Invalid JSON files: " ++ pyJoin (", ") r.1))

/-! `json.dump(content, f, ensure_ascii=False, indent=4)` as used on
keyword files (scripts/make_dist.py lines 59-60). -/

/-- Lower-case hexadecimal digit. -/
def hexDigit (n : Nat) : Char :=
  if n < 10 then Char.ofNat (48 + n) else Char.ofNat (87 + n)

/-- JSON string escaping with `ensure_ascii=False`: only the quote, the
backslash and control characters are escaped. -/
def jsonEscapeChar (c : Char) : List Char :=
  if c == '"' then ['\\', '"']
  else if c == '\\' then ['\\', '\\']
  else if c == '\n' then ['\\', 'n']
  else if c == '\r' then ['\\', 'r']
  else if c == '\t' then ['\\', 't']
  else if c == '\x08' then ['\\', 'b']
  else if c == '\x0c' then ['\\', 'f']
  else if c.toNat < 32 then
    ['\\', 'u', '0', '0', hexDigit (c.toNat / 16), hexDigit (c.toNat % 16)]
  else [c]

/-- A JSON string literal. -/
def jsonQuote (s : String) : String :=
  ⟨'"' :: s.data.foldr (fun c acc => jsonEscapeChar c ++ acc) ['"']⟩

/-- `n` spaces. -/
def nSpaces (n : Nat) : String := ⟨List.replicate n ' '⟩

mutual

/-- `json.dumps(..., ensure_ascii=False, indent=4)` at a nesting level:
containers put each child on its own line indented by four spaces per
level, the closing bracket on the parent's level. -/
def jsonDumpV (lvl : Nat) : Json → String
  | .str s => jsonQuote s
  | .num i => toString i
  | .jbool b => if b then "true" else "false"
  | .null => "null"
  | .arr .nil => "[]"
  | .arr xs => "[\n" ++ pyJoin (",\n") (jsonDumpArr (lvl + 1) xs) ++ "\n" ++
      nSpaces (4 * lvl) ++ "]"
  | .obj .nil => "\x7b\x7d"
  | .obj kvs => "\x7b\n" ++ pyJoin (",\n") (jsonDumpObj (lvl + 1) kvs) ++ "\n" ++
      nSpaces (4 * lvl) ++ "\x7d"

def jsonDumpArr (lvl : Nat) : JsonArr → List String
  | .nil => []
  | .cons x xs => (nSpaces (4 * lvl) ++ jsonDumpV lvl x) :: jsonDumpArr lvl xs

def jsonDumpObj (lvl : Nat) : JsonObj → List String
  | .nil => []
  | .cons k v kvs =>
    (nSpaces (4 * lvl) ++ jsonQuote k ++ ": " ++ jsonDumpV lvl v) :: jsonDumpObj lvl kvs

end

/-- Top-level `json.dump(..., ensure_ascii=False, indent=4)`. -/
def json_dump (j : Json) : String := jsonDumpV 0 j

/-- One iteration of the valid-file branch of `dist_localization_data`
(scripts/make_dist.py lines 54-70), with `json.loads` of the source bytes
given as `srcDoc` and the digest (`get_file_checksum`, lines 19-24) as an
explicit function on file bytes. Returns the bytes written into the
output tree and the `FileMetaData` appended to the manifest. If the file
name is in the keyword-files set, the written bytes are the re-serialized
keyword-converted document; otherwise `shutil.copy` writes the source
bytes. In both branches the recorded checksum is computed by
`get_file_checksum(file)` on the source path, i.e. over `srcBytes`. -/
def dist_process_file (keyword_files : List String) (kc : KeywordColors)
    (checksum : String → String) (name relPath : String)
    (srcDoc : Json) (srcBytes : String) : String × FileMetaData :=
  if name ∈ keyword_files then
    (json_dump (convert_keywords srcDoc kc), ⟨relPath, checksum srcBytes⟩)
  else
    (srcBytes, ⟨relPath, checksum srcBytes⟩)

/-! `get_env_variables` (scripts/update_submodules.py lines 7-17). -/

/-- Python truthiness of an optional environment value: `os.getenv`
returns `None` when the variable is absent, and an empty string is falsy
in `all`. -/
def pyTruthy : Option String → Bool
  | none => false
  | some s => !s.isEmpty

/-- `get_env_variables` (scripts/update_submodules.py lines 7-17) over an
explicit environment: reads the three variables, raises the fixed
`ValueError` when `all` of them is not truthy, otherwise returns the
triple unchanged. -/
def get_env_variables (env : String → Option String) :
    Except String (String × String × String) :=
  let github_token := env ("GITHUB_TOKEN")
  let repo_owner := env ("REPO_OWNER")
  let repo_name := env ("REPO_NAME")
  if pyTruthy github_token && pyTruthy repo_owner && pyTruthy repo_name then
    Except.ok (github_token.getD "", repo_owner.getD "", repo_name.getD "")
  else
    Except.error
      ("One or more environment variables (GITHUB_TOKEN, REPO_OWNER, REPO_NAME) are missing.")

/-- The character-list form of a full shorthand occurrence
`[kid:'txt']post`. -/
def shorthandChars (kidL txtL postL : List Char) : List Char :=
  '[' :: (kidL ++ (':' :: squote :: (txtL ++ (squote :: ']' :: postL))))


/-- A concrete environment for the C9 counterexample: `GITHUB_TOKEN` is
present but empty, the other two variables are present and non-empty. -/
def c9_env : String → Option String := fun s =>
  if s == "GITHUB_TOKEN" then some ""
  else if s == "REPO_OWNER" then some ("owner")
  else if s == "REPO_NAME" then some ("name")
  else none


/-- Keyword table for the C1 demonstration. -/
def c1_kc : KeywordColors := [("foo", "#ff0000")]

/-- A keyword file's parsed content: one string value holding a known
shorthand occurrence. -/
def c1_doc : Json := .obj (.cons ("k") (.str "[foo:'Hi']") .nil)

/-- The source file's bytes (serialized form of the unconverted document). -/
def c1_src : String := json_dump c1_doc

/-- The per-file dist step run on that keyword file, with the digest
modelled by an injective stand-in (the identity on the hashed bytes). -/
def c1_run : String × FileMetaData :=
  dist_process_file ["KeywordDict.json"] c1_kc (fun s => s)
    ("KeywordDict.json") ("RU/KeywordDict.json") c1_doc c1_src


example : replace_shorthands ("[foo:'Hello']") [("foo", "#ff0000")] =
    "<sprite name=\"foo\"><color=#ff0000><u><link=\"foo\">Hello</link></u></color>" := by
  decide

example : replace_shorthands ("a [bar:'X'] b") [] =
    "a <sprite name=\"bar\"><color=#f8c200><u><link=\"bar\">X</link></u></color> b" := by
  decide

example : replace_shorthands_diags ("a [bar:'X'] b") [] = ["bar"] := by decide

example : replace_shorthands ("[foo:'']") [("foo", "#ff0000")] = "[foo:'']" := by decide

example : replace_shorthands ("[a:b:'x']") [] = "[a:b:'x']" := by decide

example : replace_shorthands ("[x[y:'t']") [] =
    "[x<sprite name=\"y\"><color=#f8c200><u><link=\"y\">t</link></u></color>" := by decide

/-! Lemmas about the shorthand scanner. -/

theorem takeTextAux_length {cs t r : List Char} (h : takeTextAux cs = some (t, r)) :
    r.length + 2 ≤ cs.length := by
  induction cs generalizing t r with
  | nil => simp [takeTextAux] at h
  | cons c1 rest ih =>
    cases rest with
    | nil => simp [takeTextAux] at h
    | cons c2 rest2 =>
      simp only [takeTextAux] at h
      split at h
      · simp only [Option.some.injEq, Prod.mk.injEq] at h
        obtain ⟨rfl, rfl⟩ := h
        simp
      · split at h
        · simp at h
        · cases hrec : takeTextAux (c2 :: rest2) with
          | none => rw [hrec] at h; simp at h
          | some p =>
            obtain ⟨t', r'⟩ := p
            rw [hrec] at h
            simp only [Option.some.injEq, Prod.mk.injEq] at h
            obtain ⟨rfl, rfl⟩ := h
            have := ih hrec
            simp at this ⊢
            omega

theorem takeText_length {cs t r : List Char} (h : takeText cs = some (t, r)) :
    r.length + 3 ≤ cs.length := by
  cases cs with
  | nil => simp [takeText] at h
  | cons c rest =>
    simp only [takeText] at h
    split at h
    · simp at h
    · cases hrec : takeTextAux rest with
      | none => rw [hrec] at h; simp at h
      | some p =>
        obtain ⟨t', r'⟩ := p
        rw [hrec] at h
        simp only [Option.some.injEq, Prod.mk.injEq] at h
        obtain ⟨rfl, rfl⟩ := h
        have := takeTextAux_length hrec
        simp
        omega

theorem length_dropWhile_le' (p : Char → Bool) (l : List Char) :
    (l.dropWhile p).length ≤ l.length := by
  induction l with
  | nil => simp
  | cons c cs ih =>
    rw [List.dropWhile]
    cases p c
    · simp
    · simp only [List.length_cons]; omega

theorem matchShorthand_length {cs : List Char} {kid txt : String} {rest : List Char}
    (h : matchShorthand cs = some (kid, txt, rest)) : rest.length < cs.length := by
  cases cs with
  | nil => simp [matchShorthand] at h
  | cons c cs' =>
    simp only [matchShorthand] at h
    split at h
    · next rest0 heq =>
      obtain ⟨rfl, rfl⟩ : c = '[' ∧ cs' = rest0 := by
        injection heq with h1 h2; exact ⟨h1, h2⟩
      revert h
      split
      · next c2 rest2 hdw =>
        intro h
        split at h
        · cases htt : takeText rest2 with
          | none => rw [htt] at h; simp at h
          | some p =>
            obtain ⟨t', r'⟩ := p
            rw [htt] at h
            simp only [Option.some.injEq, Prod.mk.injEq] at h
            obtain ⟨-, -, rfl⟩ := h
            have h1 := takeText_length htt
            have h2 : (cs'.dropWhile isWordChar).length ≤ cs'.length :=
              length_dropWhile_le' _ _
            rw [hdw] at h2
            simp at h2 ⊢
            omega
        · simp at h
      · intro h; simp at h
    · simp at h

theorem subAuxF_fuel {kc : KeywordColors} :
    ∀ f1, ∀ {l : List Char}, ∀ f2, l.length ≤ f1 → l.length ≤ f2 →
      subAuxF kc f1 l = subAuxF kc f2 l := by
  intro f1
  induction f1 with
  | zero =>
    intro l f2 h1 _
    have : l = [] := List.length_eq_zero.mp (Nat.le_zero.mp h1)
    subst this
    cases f2 <;> rfl
  | succ f1 ih =>
    intro l f2 h1 h2
    cases l with
    | nil => cases f2 <;> rfl
    | cons c cs =>
      cases f2 with
      | zero => simp at h2
      | succ f2' =>
        simp only [subAuxF]
        cases hm : matchShorthand (c :: cs) with
        | some p =>
          obtain ⟨kid, txt, rest⟩ := p
          have hlen := matchShorthand_length hm
          simp only []
          rw [ih (l := rest) f2' (by simp at hlen h1 ⊢; omega) (by simp at hlen h2 ⊢; omega)]
        | none =>
          simp only []
          rw [ih (l := cs) f2' (by simp at h1 ⊢; omega) (by simp at h2 ⊢; omega)]

theorem subAux_cons_some {kc : KeywordColors} {c : Char} {cs : List Char}
    {kid txt : String} {rest : List Char}
    (h : matchShorthand (c :: cs) = some (kid, txt, rest)) :
    subAux kc (c :: cs) =
      ((make_replacement kc kid txt).1.data ++ (subAux kc rest).1,
       (make_replacement kc kid txt).2 ++ (subAux kc rest).2) := by
  have hlen := matchShorthand_length h
  simp only [subAux, List.length_cons, subAuxF, h]
  rw [subAuxF_fuel cs.length rest.length (by simp at hlen ⊢; omega) (le_refl _)]

theorem subAux_cons_none {kc : KeywordColors} {c : Char} {cs : List Char}
    (h : matchShorthand (c :: cs) = none) :
    subAux kc (c :: cs) = (c :: (subAux kc cs).1, (subAux kc cs).2) := by
  simp only [subAux, List.length_cons, subAuxF, h]

theorem matchShorthand_ne_lbracket {c : Char} {cs : List Char} (h : c ≠ '[') :
    matchShorthand (c :: cs) = none := by
  rw [matchShorthand.eq_def]
  split
  · next rest heq => injection heq with h1 _; exact absurd h1 h
  · rfl

theorem takeTextAux_exact {ts rest : List Char}
    (hq : squote ∉ ts) (hn : '\n' ∉ ts) :
    takeTextAux (ts ++ squote :: ']' :: rest) = some (ts, rest) := by
  induction ts with
  | nil => simp [takeTextAux]
  | cons c ts' ih =>
    have hq' : squote ∉ ts' := fun hm => hq (List.mem_cons_of_mem _ hm)
    have hn' : '\n' ∉ ts' := fun hm => hn (List.mem_cons_of_mem _ hm)
    have hcq : c ≠ squote := fun hc => hq (hc ▸ List.mem_cons_self _ _)
    have hcn : c ≠ '\n' := fun hc => hn (hc ▸ List.mem_cons_self _ _)
    cases hE : ts' ++ squote :: ']' :: rest with
    | nil => exact absurd hE (by simp)
    | cons c2 l2 =>
      have : takeTextAux (c :: c2 :: l2) = some (c :: ts', rest) := by
        rw [takeTextAux]
        have h1 : (c == squote && c2 == ']') = false := by
          simp [hcq]
        rw [h1]
        simp only [Bool.false_eq_true, if_false]
        have h2 : (c == '\n') = false := by simp [hcn]
        rw [h2]
        simp only [Bool.false_eq_true, if_false]
        rw [← hE, ih hq' hn']
      rw [← hE] at this
      exact this

theorem takeText_exact {txtL rest : List Char}
    (hne : txtL ≠ []) (hq : squote ∉ txtL) (hn : '\n' ∉ txtL) :
    takeText (txtL ++ squote :: ']' :: rest) = some (txtL, rest) := by
  cases txtL with
  | nil => exact absurd rfl hne
  | cons c ts =>
    have hq' : squote ∉ ts := fun hm => hq (List.mem_cons_of_mem _ hm)
    have hn' : '\n' ∉ ts := fun hm => hn (List.mem_cons_of_mem _ hm)
    have hcn : c ≠ '\n' := fun hc => hn (hc ▸ List.mem_cons_self _ _)
    simp only [List.cons_append, takeText]
    have h2 : (c == '\n') = false := by simp [hcn]
    rw [h2]
    simp only [Bool.false_eq_true, if_false]
    rw [takeTextAux_exact hq' hn']

theorem matchShorthand_exact {kidL txtL postL : List Char}
    (hkne : kidL ≠ []) (hkw : ∀ c ∈ kidL, isWordChar c = true)
    (htne : txtL ≠ []) (hq : squote ∉ txtL) (hn : '\n' ∉ txtL) :
    matchShorthand (shorthandChars kidL txtL postL) = some (⟨kidL⟩, ⟨txtL⟩, postL) := by
  rw [shorthandChars, matchShorthand]
  have hcolon : isWordChar ':' = false := by decide
  have htake : List.takeWhile isWordChar
      (kidL ++ (':' :: squote :: (txtL ++ (squote :: ']' :: postL)))) = kidL := by
    rw [List.takeWhile_append_of_pos hkw]
    simp [List.takeWhile, hcolon]
  have hdrop : List.dropWhile isWordChar
      (kidL ++ (':' :: squote :: (txtL ++ (squote :: ']' :: postL)))) =
      ':' :: squote :: (txtL ++ (squote :: ']' :: postL)) := by
    rw [List.dropWhile_append_of_pos hkw]
    simp [List.dropWhile, hcolon]
  simp only [htake, hdrop]
  have hempty : kidL.isEmpty = false := by
    cases kidL with
    | nil => exact absurd rfl hkne
    | cons a l => rfl
  simp only [hempty, beq_self_eq_true, Bool.and_true, Bool.not_false]
  have : txtL ++ (squote :: ']' :: postL) = txtL ++ squote :: ']' :: postL := rfl
  rw [this, takeText_exact htne hq hn]
  simp

theorem subAux_copy {kc : KeywordColors} {l : List Char} (h : '[' ∉ l) :
    subAux kc l = (l, []) := by
  induction l with
  | nil => rfl
  | cons c cs ih =>
    have hc : c ≠ '[' := fun hc => h (hc ▸ List.mem_cons_self _ _)
    have hcs : '[' ∉ cs := fun hm => h (List.mem_cons_of_mem _ hm)
    rw [subAux_cons_none (matchShorthand_ne_lbracket hc), ih hcs]

theorem subAux_append_copy {kc : KeywordColors} {pre l : List Char} (h : '[' ∉ pre) :
    subAux kc (pre ++ l) = (pre ++ (subAux kc l).1, (subAux kc l).2) := by
  induction pre with
  | nil => simp
  | cons c cs ih =>
    have hc : c ≠ '[' := fun hc => h (hc ▸ List.mem_cons_self _ _)
    have hcs : '[' ∉ cs := fun hm => h (List.mem_cons_of_mem _ hm)
    rw [List.cons_append, subAux_cons_none (matchShorthand_ne_lbracket hc), ih hcs]
    simp

theorem subAux_clean {kc : KeywordColors} {l : List Char} (h : cleanChars l = true) :
    subAux kc l = (l, []) := by
  induction l with
  | nil => rfl
  | cons c cs ih =>
    rw [cleanChars] at h
    obtain ⟨h1, h2⟩ := Bool.and_eq_true .. ▸ h
    rw [subAux_cons_none (Option.isNone_iff_eq_none.mp h1), ih h2]

theorem subAux_decompose (kc : KeywordColors) (preL kidL txtL postL : List Char)
    (hpre : '[' ∉ preL)
    (hkne : kidL ≠ []) (hkw : ∀ c ∈ kidL, isWordChar c = true)
    (htne : txtL ≠ []) (hq : squote ∉ txtL) (hn : '\n' ∉ txtL) :
    subAux kc (preL ++ shorthandChars kidL txtL postL) =
      (preL ++ ((make_replacement kc ⟨kidL⟩ ⟨txtL⟩).1.data ++ (subAux kc postL).1),
       (make_replacement kc ⟨kidL⟩ ⟨txtL⟩).2 ++ (subAux kc postL).2) := by
  have hm : matchShorthand
      ('[' :: (kidL ++ (':' :: squote :: (txtL ++ (squote :: ']' :: postL))))) =
      some (⟨kidL⟩, ⟨txtL⟩, postL) :=
    matchShorthand_exact hkne hkw htne hq hn
  rw [subAux_append_copy hpre, shorthandChars, subAux_cons_some hm]

theorem string_mk_data (s : String) : (⟨s.data⟩ : String) = s := rfl

theorem replace_shorthands_occurrence (kc : KeywordColors) (kid txt pre post : String)
    (hkne : kid.data ≠ []) (hkw : ∀ ch ∈ kid.data, isWordChar ch = true)
    (htne : txt.data ≠ []) (hq : squote ∉ txt.data) (hn : '\n' ∉ txt.data)
    (hpre : '[' ∉ pre.data) :
    replace_shorthands (pre ++ "[" ++ kid ++ ":'" ++ txt ++ "']" ++ post) kc =
      pre ++ (make_replacement kc kid txt).1 ++ replace_shorthands post kc ∧
    replace_shorthands_diags (pre ++ "[" ++ kid ++ ":'" ++ txt ++ "']" ++ post) kc =
      (make_replacement kc kid txt).2 ++ replace_shorthands_diags post kc := by
  have h1 : ("[" : String).data = ['['] := rfl
  have h2 : ((":'") : String).data = [':', squote] := rfl
  have h3 : (("']") : String).data = [squote, ']'] := rfl
  have hdata : (pre ++ "[" ++ kid ++ ":'" ++ txt ++ "']" ++ post).data =
      pre.data ++ shorthandChars kid.data txt.data post.data := by
    simp only [String.data_append, h1, h2, h3, shorthandChars]
    simp only [List.append_assoc, List.cons_append, List.singleton_append, List.nil_append]
    rfl
  have hsub := subAux_decompose kc pre.data kid.data txt.data post.data
    hpre hkne hkw htne hq hn
  constructor
  · apply String.ext
    simp only [replace_shorthands, hdata, hsub]
    simp only [String.data_append, List.append_assoc]
  · simp only [replace_shorthands_diags, hdata, hsub]

/-- C2. For every input string containing an occurrence of the shorthand
`[id:'text']` whose identifier is present in the keyword table with
color `c` — the identifier a non-empty run of word characters, the text
non-empty with no quote and no newline, and no `[` before the occurrence —
`replace_shorthands` rewrites that occurrence to exactly the fixed markup
template instantiated with the identifier, the color and the text (a
sprite reference naming the id, a color tag with `c`, underline markup,
and a link target naming the id wrapping the literal text), leaves the
text before the occurrence untouched, and processes the remainder of the
string in the same way. -/
theorem claim_C2 (kc : KeywordColors) (kid txt c pre post : String)
    (hkne : kid.data ≠ []) (hkw : ∀ ch ∈ kid.data, isWordChar ch = true)
    (htne : txt.data ≠ []) (hq : squote ∉ txt.data) (hn : '\n' ∉ txt.data)
    (hpre : '[' ∉ pre.data)
    (hc : lookupTable kc kid = some c) :
    replace_shorthands (pre ++ "[" ++ kid ++ ":'" ++ txt ++ "']" ++ post) kc =
      pre ++ ("<sprite name=\"" ++ kid ++ "\"><color=" ++ c ++ "><u><link=\"" ++
        kid ++ "\">" ++ txt ++ "</link></u></color>") ++
        replace_shorthands post kc := by
  rw [(replace_shorthands_occurrence kc kid txt pre post hkne hkw htne hq hn hpre).1]
  have hmr : (make_replacement kc kid txt).1 = shorthand_markup kid c txt := by
    simp [make_replacement, hc]
  rw [hmr]
  have e1 : ("\"><color=" : String) = "\">" ++ "<color=" := rfl
  have e2 : ("><u><link=\"" : String) = ">" ++ "<u>" ++ "<link=\"" := rfl
  have e3 : ("</link></u></color>" : String) = "</link>" ++ "</u>" ++ "</color>" := rfl
  rw [shorthand_markup, e1, e2, e3]
  simp [String.append_assoc]

/-- Witness for C2 at the spec's own example: `[foo:'Hello']` with the
table mapping `foo` to `#ff0000`. -/
theorem claim_C2_witness :
    replace_shorthands ("" ++ "[" ++ "foo" ++ ":'" ++ "Hello" ++ "']" ++ "")
        [("foo", "#ff0000")] =
      "" ++ ("<sprite name=\"" ++ "foo" ++ "\"><color=" ++ "#ff0000" ++ "><u><link=\"" ++
        "foo" ++ "\">" ++ "Hello" ++ "</link></u></color>") ++
        replace_shorthands "" [("foo", "#ff0000")] :=
  claim_C2 [("foo", "#ff0000")] ("foo") ("Hello") ("#ff0000") "" ""
    (by decide) (by decide) (by decide) (by decide) (by decide) (by decide) (by decide)

/-- C5. For a shorthand occurrence whose identifier is absent from the
keyword table (same well-formedness side conditions as for C2),
`replace_shorthands` emits a diagnostic naming the unknown identifier and
produces the same markup shape with the fixed fallback color `#f8c200`
substituted; the surrounding text is preserved and the remainder of the
string is processed in the same way. -/
theorem claim_C5 (kc : KeywordColors) (kid txt pre post : String)
    (hkne : kid.data ≠ []) (hkw : ∀ ch ∈ kid.data, isWordChar ch = true)
    (htne : txt.data ≠ []) (hq : squote ∉ txt.data) (hn : '\n' ∉ txt.data)
    (hpre : '[' ∉ pre.data)
    (hc : lookupTable kc kid = none) :
    replace_shorthands (pre ++ "[" ++ kid ++ ":'" ++ txt ++ "']" ++ post) kc =
      pre ++ ("<sprite name=\"" ++ kid ++ "\"><color=" ++ "#f8c200" ++ "><u><link=\"" ++
        kid ++ "\">" ++ txt ++ "</link></u></color>") ++
        replace_shorthands post kc ∧
    replace_shorthands_diags (pre ++ "[" ++ kid ++ ":'" ++ txt ++ "']" ++ post) kc =
      kid :: replace_shorthands_diags post kc := by
  obtain ⟨hout, hdiag⟩ :=
    replace_shorthands_occurrence kc kid txt pre post hkne hkw htne hq hn hpre
  have hmr : make_replacement kc kid txt = (shorthand_markup kid ("#f8c200") txt, [kid]) := by
    simp [make_replacement, hc]
  constructor
  · rw [hout, hmr]
    have e1 : ("\"><color=" : String) = "\">" ++ "<color=" := rfl
    have e2 : ("><u><link=\"" : String) = ">" ++ "<u>" ++ "<link=\"" := rfl
    have e3 : ("</link></u></color>" : String) = "</link>" ++ "</u>" ++ "</color>" := rfl
    rw [shorthand_markup, e1, e2, e3]
    simp [String.append_assoc]
  · rw [hdiag, hmr]
    rfl

/-- Witness for C5 at the spec's own example: unknown identifier `bar`. -/
theorem claim_C5_witness :
    replace_shorthands ("" ++ "[" ++ "bar" ++ ":'" ++ "Hi" ++ "']" ++ "") [] =
      "" ++ ("<sprite name=\"" ++ "bar" ++ "\"><color=" ++ "#f8c200" ++ "><u><link=\"" ++
        "bar" ++ "\">" ++ "Hi" ++ "</link></u></color>") ++
        replace_shorthands "" [] ∧
    replace_shorthands_diags ("" ++ "[" ++ "bar" ++ ":'" ++ "Hi" ++ "']" ++ "") [] =
      "bar" :: replace_shorthands_diags "" [] :=
  claim_C5 [] ("bar") ("Hi") "" ""
    (by decide) (by decide) (by decide) (by decide) (by decide) (by decide) (by decide)

theorem takeTextAux_no_squote {l : List Char} (h : squote ∉ l) : takeTextAux l = none := by
  induction l with
  | nil => rfl
  | cons c1 rest ih =>
    cases rest with
    | nil => rfl
    | cons c2 rest2 =>
      have hc1 : c1 ≠ squote := fun hc => h (hc ▸ List.mem_cons_self _ _)
      have hr : squote ∉ c2 :: rest2 := fun hm => h (List.mem_cons_of_mem _ hm)
      rw [takeTextAux]
      have h1 : (c1 == squote && c2 == ']') = false := by simp [hc1]
      rw [h1]
      simp only [Bool.false_eq_true, if_false]
      split
      · rfl
      · rw [ih hr]

theorem matchShorthand_empty_text {kidL postL : List Char}
    (hkne : kidL ≠ []) (hkw : ∀ c ∈ kidL, isWordChar c = true)
    (hpost : squote ∉ postL) :
    matchShorthand ('[' :: (kidL ++ (':' :: squote :: squote :: ']' :: postL))) = none := by
  rw [matchShorthand]
  have hcolon : isWordChar ':' = false := by decide
  have htake : List.takeWhile isWordChar
      (kidL ++ (':' :: squote :: squote :: ']' :: postL)) = kidL := by
    rw [List.takeWhile_append_of_pos hkw]
    simp [List.takeWhile, hcolon]
  have hdrop : List.dropWhile isWordChar
      (kidL ++ (':' :: squote :: squote :: ']' :: postL)) =
      ':' :: squote :: squote :: ']' :: postL := by
    rw [List.dropWhile_append_of_pos hkw]
    simp [List.dropWhile, hcolon]
  simp only [htake, hdrop]
  have hempty : kidL.isEmpty = false := by
    cases kidL with
    | nil => exact absurd rfl hkne
    | cons a l => rfl
  simp only [hempty, beq_self_eq_true, Bool.and_true, Bool.not_false]
  have htt : takeText (squote :: ']' :: postL) = none := by
    rw [takeText]
    have hq : (squote == '\n') = false := by decide
    rw [hq]
    simp only [Bool.false_eq_true, if_false]
    have : squote ∉ ']' :: postL := by
      intro hm
      rcases List.mem_cons.mp hm with h | h
      · exact absurd h.symm (by decide)
      · exact hpost h
    rw [takeTextAux_no_squote this]
  rw [htt]
  simp

/-- C10. For every keyword table, a shorthand-like occurrence with an
empty quoted text span, `[id:'']`, is not a match of the shorthand
pattern: `replace_shorthands` leaves it verbatim in the output and emits
no markup and no diagnostic, because the grammar requires the quoted text
span to be non-empty. (Stated with arbitrary surrounding text that
contains no `[` and, after the occurrence, no quote, so that no other
match interferes.) -/
theorem claim_C10 (kc : KeywordColors) (kid pre post : String)
    (hkne : kid.data ≠ []) (hkw : ∀ ch ∈ kid.data, isWordChar ch = true)
    (hpre : '[' ∉ pre.data) (hpost1 : '[' ∉ post.data) (hpost2 : squote ∉ post.data) :
    replace_shorthands (pre ++ "[" ++ kid ++ ":'']" ++ post) kc =
      pre ++ "[" ++ kid ++ ":'']" ++ post ∧
    replace_shorthands_diags (pre ++ "[" ++ kid ++ ":'']" ++ post) kc = [] := by
  have h1 : ("[" : String).data = ['['] := rfl
  have h2 : ((":'']") : String).data = [':', squote, squote, ']'] := rfl
  have hdata : (pre ++ "[" ++ kid ++ ":'']" ++ post).data =
      pre.data ++ ('[' :: (kid.data ++ (':' :: squote :: squote :: ']' :: post.data))) := by
    simp only [String.data_append, h1, h2]
    simp only [List.append_assoc, List.cons_append, List.singleton_append, List.nil_append]
    rfl
  have hm := matchShorthand_empty_text hkne hkw hpost2
  have hnb : '[' ∉ kid.data ++ (':' :: squote :: squote :: ']' :: post.data) := by
    intro hmem
    rcases List.mem_append.mp hmem with h | h
    · exact absurd (hkw _ h) (by decide)
    · simp only [List.mem_cons] at h
      rcases h with h | h | h | h | h
      · exact absurd h (by decide)
      · exact absurd h (by decide)
      · exact absurd h (by decide)
      · exact absurd h (by decide)
      · exact hpost1 h
  have hsub : subAux kc (pre.data ++ ('[' ::
      (kid.data ++ (':' :: squote :: squote :: ']' :: post.data)))) =
      (pre.data ++ ('[' :: (kid.data ++ (':' :: squote :: squote :: ']' :: post.data))), []) := by
    rw [subAux_append_copy hpre, subAux_cons_none hm, subAux_copy hnb]
  constructor
  · apply String.ext
    simp only [replace_shorthands, hdata, hsub]
  · simp only [replace_shorthands_diags, hdata, hsub]

/-- Witness for C10: `[foo:'']` between plain text, with `foo` even
present in the table. -/
theorem claim_C10_witness :
    replace_shorthands ("see " ++ "[" ++ "foo" ++ ":'']" ++ " end") [("foo", "#ff0000")] =
      "see " ++ "[" ++ "foo" ++ ":'']" ++ " end" ∧
    replace_shorthands_diags ("see " ++ "[" ++ "foo" ++ ":'']" ++ " end")
      [("foo", "#ff0000")] = [] :=
  claim_C10 [("foo", "#ff0000")] ("foo") ("see ") (" end")
    (by decide) (by decide) (by decide) (by decide) (by decide)

theorem replace_shorthands_clean {kc : KeywordColors} {s : String}
    (h : cleanChars s.data = true) : replace_shorthands s kc = s := by
  rw [replace_shorthands, subAux_clean h]

mutual

theorem convertValue_clean (kc : KeywordColors) :
    ∀ v : Json, jsonClean v = true → convertValue v kc = v
  | .str s, h => by
    rw [convertValue, replace_shorthands_clean h]
  | .num _, _ => rfl
  | .jbool _, _ => rfl
  | .null, _ => rfl
  | .arr xs, h => by rw [convertValue, convertArr_clean kc xs h]
  | .obj kvs, h => by rw [convertValue, convertObj_clean kc kvs h]

theorem convertArr_clean (kc : KeywordColors) :
    ∀ xs : JsonArr, jsonCleanArr xs = true → convertArr xs kc = xs
  | .nil, _ => rfl
  | .cons v rest, h => by
    obtain ⟨h1, h2⟩ := Bool.and_eq_true .. ▸ h
    rw [convertArr, convertValue_clean kc v h1, convertArr_clean kc rest h2]

theorem convertObj_clean (kc : KeywordColors) :
    ∀ kvs : JsonObj, jsonCleanObj kvs = true → convertObj kvs kc = kvs
  | .nil, _ => rfl
  | .cons k v rest, h => by
    obtain ⟨h1, h2⟩ := Bool.and_eq_true .. ▸ h
    rw [convertObj, convertValue_clean kc v h1, convertObj_clean kc rest h2]

end

theorem convert_keywords_clean {kc : KeywordColors} {d : Json}
    (h : jsonClean d = true) : convert_keywords d kc = d := by
  cases d with
  | obj kvs => rw [convert_keywords, convertObj_clean kc kvs h]
  | arr xs => rw [convert_keywords, convertArr_clean kc xs h]
  | str s => rfl
  | num i => rfl
  | jbool b => rfl
  | null => rfl

/-- C8. For every string with no occurrence of the shorthand pattern (the
regex matches at no scan position), `replace_shorthands` returns the
string unchanged; hence for every JSON document none of whose string
leaves contains a shorthand occurrence, the keyword converter is the
identity, for any keyword table. -/
theorem claim_C8 (kc : KeywordColors) :
    (∀ s : String, cleanChars s.data = true → replace_shorthands s kc = s) ∧
    (∀ d : Json, jsonClean d = true → convert_keywords d kc = d) :=
  ⟨fun _ h => replace_shorthands_clean h, fun _ h => convert_keywords_clean h⟩

/-- Witness for C8 on a concrete shorthand-free string and document. -/
theorem claim_C8_witness :
    replace_shorthands ("hello [not:a] shorthand") [("foo", "#ff0000")] =
      "hello [not:a] shorthand" ∧
    convert_keywords
      (Json.obj (.cons ("k") (.str "plain value") (.cons ("n") (.num 3) .nil)))
      [("foo", "#ff0000")] =
      Json.obj (.cons ("k") (.str "plain value") (.cons ("n") (.num 3) .nil)) :=
  ⟨(claim_C8 [("foo", "#ff0000")]).1 _ (by decide),
   (claim_C8 [("foo", "#ff0000")]).2 _ (by decide)⟩

mutual

theorem convertValue_sameShape (kc : KeywordColors) :
    ∀ v : Json, sameShape v (convertValue v kc) = true
  | .str s => rfl
  | .num i => by simp [convertValue, sameShape]
  | .jbool b => by simp [convertValue, sameShape]
  | .null => rfl
  | .arr xs => convertArr_sameShape kc xs
  | .obj kvs => convertObj_sameShape kc kvs

theorem convertArr_sameShape (kc : KeywordColors) :
    ∀ xs : JsonArr, sameShapeArr xs (convertArr xs kc) = true
  | .nil => rfl
  | .cons v rest => by
    rw [convertArr, sameShapeArr, convertValue_sameShape kc v,
      convertArr_sameShape kc rest]
    rfl

theorem convertObj_sameShape (kc : KeywordColors) :
    ∀ kvs : JsonObj, sameShapeObj kvs (convertObj kvs kc) = true
  | .nil => rfl
  | .cons k v rest => by
    rw [convertObj, sameShapeObj, convertValue_sameShape kc v,
      convertObj_sameShape kc rest]
    simp

end

/-- C7. `convert_keywords` preserves the shape of the document: the output
has the same nesting structure, the same mapping keys in the same order
and the same sequence lengths as the input, with only string-typed leaves
possibly rewritten and non-string scalar leaves unchanged. (The keyword
table is a read-only input of the embedding, so its non-mutation is
immediate.) -/
theorem claim_C7 (d : Json) (kc : KeywordColors) :
    sameShape d (convert_keywords d kc) = true := by
  cases d with
  | obj kvs => exact convertObj_sameShape kc kvs
  | arr xs => exact convertArr_sameShape kc xs
  | str s => rfl
  | num i => simp [convert_keywords, sameShape]
  | jbool b => simp [convert_keywords, sameShape]
  | null => rfl

example : splitlines "" = [] := by decide
example : splitlines ("a\nb") = ["a", "b"] := by decide
example : splitlines ("a\n") = ["a"] := by decide
example : splitlines ("\n") = [""] := by decide
example : splitlines ("a\r\nb") = ["a", "b"] := by decide
example : splitlines ("a\n\nb") = ["a", "", "b"] := by decide

/-- Counterexample to C6 as stated: for the release body `# a #`, the
claim predicts a heading with only the leading `#` and space characters
stripped, i.e. value `a #`; the code strips `#` and space characters from
both ends of `line[1:]`, producing value `a`. -/
theorem claim_C6_counterexample :
    (GitHubRelease.make_readme ⟨"v1", "# a #", "2024-01-01T00:00:00Z"⟩).text.list =
      [RBElem.RSubTitle ("a") (some 49)] ∧
    [RBElem.RSubTitle ("a") (some 49)] ≠ [RBElem.RSubTitle ("a #") (some 49)] := by
  constructor
  · rfl
  · decide

/-- C6 (amended). When a release body is converted to readme elements,
every line yields exactly one element in order; a line whose
whitespace-stripped form starts with `#` becomes a heading element whose
value is the line minus its first character stripped of `#` and space
characters at both ends, with the fixed display size 49; every other line
becomes a plain-text element with its text unchanged; in particular a
blank line becomes an empty text element. -/
theorem claim_C6 (r : GitHubRelease) :
    (GitHubRelease.make_readme r).text.list.length = (splitlines r.body).length ∧
    ∀ (i : Nat) (line : String), (splitlines r.body)[i]? = some line →
      ((GitHubRelease.make_readme r).text.list)[i]? =
        some (if startsWithHash (pyStrip pyIsSpace line) then
                RBElem.RSubTitle (pyStrip isHashOrSpace (String.drop line 1)) (some 49)
              else RBElem.RText line) := by
  constructor
  · simp [GitHubRelease.make_readme]
  · intro i line h
    simp [GitHubRelease.make_readme, List.getElem?_map, h, make_readme_line]

/-- Witness for C6 (amended): the blank second line of a three-line body
becomes an empty text element. -/
theorem claim_C6_witness :
    ((GitHubRelease.make_readme ⟨"v", "# Hd\n\nplain", "t"⟩).text.list)[1]? =
      some (RBElem.RText "") := by
  have h := (claim_C6 ⟨"v", "# Hd\n\nplain", "t"⟩).2 1 "" (by decide)
  rw [h]
  decide

theorem pyEnumerate_length (start : Nat) (l : List GitHubRelease) :
    (pyEnumerate start l).length = l.length := by
  induction l generalizing start with
  | nil => rfl
  | cons x xs ih => simp [pyEnumerate, ih]

theorem pyEnumerate_getElem (l : List GitHubRelease) :
    ∀ (start n : Nat),
      (pyEnumerate start l)[n]? = l[n]?.map (fun r => (start + n, r)) := by
  induction l with
  | nil => intro start n; simp [pyEnumerate]
  | cons x xs ih =>
    intro start n
    cases n with
    | zero => simp [pyEnumerate]
    | succ m =>
      have harith : start + 1 + m = start + (m + 1) := by omega
      simp only [pyEnumerate, List.getElem?_cons_succ, ih (start + 1) m, harith]

theorem releases_notices_getElem (rels : List GitHubRelease) (k : Nat)
    (hk : k < rels.length) :
    ((pyEnumerate 2911 rels).map
        (fun p => (GitHubRelease.make_readme p.2).export (p.1 + 1) 0))[k]? =
      some ((GitHubRelease.make_readme rels[k]).export (2912 + k) 0) := by
  rw [List.getElem?_map, pyEnumerate_getElem, List.getElem?_eq_getElem hk]
  have harith : 2911 + k + 1 = 2912 + k := by omega
  simp [harith]

theorem dist_readme_notices_getElem (tpl : List Notice)
    (contributors extra : ReadmeData) (api : List GitHubRelease) (k : Nat)
    (hk : k < (get_github_releases api).length) :
    (dist_readme_noticeList tpl contributors extra api)[tpl.length + 2 + k]? =
      ((pyEnumerate 2911 (get_github_releases api)).map
        (fun p => (GitHubRelease.make_readme p.2).export (p.1 + 1) 0))[
          (get_github_releases api).length - 1 - k]? := by
  have hlen : ((pyEnumerate 2911 (get_github_releases api)).map
      (fun p => (GitHubRelease.make_readme p.2).export (p.1 + 1) 0)).length =
      (get_github_releases api).length := by
    simp [pyEnumerate_length]
  simp only [dist_readme_noticeList]
  have hl2 : ((tpl ++ [contributors.export 1193 1]) ++ [extra.export 1194 1]).length =
      tpl.length + 2 := by simp
  rw [List.getElem?_append_right (by rw [hl2]; omega)]
  have hidx : tpl.length + 2 + k -
      ((tpl ++ [contributors.export 1193 1]) ++ [extra.export 1194 1]).length = k := by
    rw [hl2]; omega
  rw [hidx, List.getElem?_reverse (by rw [hlen]; exact hk), hlen]

/-- C3. In the notice list assembled by `dist_readme`, the per-release
notices appear after the template's notices and the two fixed blocks, in
newest-first order: the notice at offset `k` within the release block is
the notice of the release at oldest-first position `length - 1 - k`, and
it carries id `2911 + (length - k)`, i.e. the `N`-th oldest release
(1-indexed) gets id `base + N` for the fixed base 2911, so ids increase
in oldest-first enumeration order regardless of final list position. -/
theorem claim_C3 (tpl : List Notice) (contributors extra : ReadmeData)
    (api : List GitHubRelease) (k : Nat)
    (hk : k < (get_github_releases api).length) :
    (dist_readme_noticeList tpl contributors extra api)[tpl.length + 2 + k]? =
      some ((GitHubRelease.make_readme
          (get_github_releases api)[(get_github_releases api).length - 1 - k]).export
        (2911 + ((get_github_releases api).length - k)) 0) ∧
    (((pyEnumerate 2911 (get_github_releases api)).map
        (fun p => (GitHubRelease.make_readme p.2).export (p.1 + 1) 0))[k]?).map
      Notice.id = some (2912 + k) := by
  have hlen2 : (get_github_releases api).length - 1 - k <
      (get_github_releases api).length := by omega
  constructor
  · rw [dist_readme_notices_getElem tpl contributors extra api k hk,
      releases_notices_getElem _ _ hlen2]
    have harith : 2912 + ((get_github_releases api).length - 1 - k) =
        2911 + ((get_github_releases api).length - k) := by omega
    rw [harith]
  · rw [releases_notices_getElem _ k hk]
    simp [ReadmeData.export]

/-- Witness for C3 with two releases (API newest-first): the first
release notice in the assembled list (offset 0 after the two fixed
blocks) is the newest release with id 2913 = 2911 + 2. -/
theorem claim_C3_witness :
    (dist_readme_noticeList [] ⟨"c", ⟨[]⟩, "t0"⟩ ⟨"e", ⟨[]⟩, "t1"⟩
        [⟨"new", "b1", "t2"⟩, ⟨"old", "b2", "t3"⟩])[2]? =
      some ((GitHubRelease.make_readme ⟨"new", "b1", "t2"⟩).export 2913 0) := by
  have h := (claim_C3 [] ⟨"c", ⟨[]⟩, "t0"⟩ ⟨"e", ⟨[]⟩, "t1"⟩
      [⟨"new", "b1", "t2"⟩, ⟨"old", "b2", "t3"⟩] 0 (by decide)).1
  simpa [get_github_releases] using h

theorem scanLoop_spec :
    ∀ (files : List LocFile) (inv proc : List String),
      scanLoop files inv proc =
        (inv ++ (files.filter (fun f => !f.validJson)).map LocFile.path,
         proc ++ (files.filter (fun f => f.validJson)).map LocFile.path) := by
  intro files
  induction files with
  | nil => intro inv proc; simp [scanLoop]
  | cons f rest ih =>
    intro inv proc
    rw [scanLoop]
    cases hv : f.validJson with
    | true => simp [hv, ih, List.filter_cons]
    | false => simp [hv, ih, List.filter_cons]

/-- C4. During the localization scan, a file whose content fails to parse
as JSON is recorded and skipped without aborting: the run fails exactly
when some file is invalid, the error is raised only after every file has
been examined and lists every invalid path in scan order, and every valid
file — before, between, or after invalid ones — is still processed. -/
theorem claim_C4 (files : List LocFile) :
    ((dist_localization_data files).2 = none ↔ ∀ f ∈ files, f.validJson = true) ∧
    (dist_localization_data files).1 =
      (files.filter (fun f => f.validJson)).map LocFile.path ∧
    ((∃ f ∈ files, f.validJson = false) →
      (dist_localization_data files).2 =
        some ("Invalid JSON files: " ++
          pyJoin (", ") ((files.filter (fun f => !f.validJson)).map LocFile.path))) := by
  have hloop := scanLoop_spec files [] []
  have hd : dist_localization_data files =
      ((files.filter (fun f => f.validJson)).map LocFile.path,
       if ((files.filter (fun f => !f.validJson)).map LocFile.path).isEmpty then none
       else some ("Invalid JSON files: " ++
         pyJoin (", ") ((files.filter (fun f => !f.validJson)).map LocFile.path))) := by
    rw [dist_localization_data, hloop]
    simp
  rw [hd]
  refine ⟨⟨?_, ?_⟩, rfl, ?_⟩
  · intro hnone f hf
    by_contra hcon
    have hfv : f.validJson = false := by
      revert hcon; cases f.validJson <;> simp
    cases hemp : ((files.filter (fun f => !f.validJson)).map LocFile.path).isEmpty with
    | false => rw [hemp] at hnone; simp at hnone
    | true =>
      have hnil : files.filter (fun f => !f.validJson) = [] := by
        rw [List.isEmpty_iff, List.map_eq_nil_iff] at hemp
        exact hemp
      have hmem : f ∈ files.filter (fun f => !f.validJson) :=
        List.mem_filter.mpr ⟨hf, by simp [hfv]⟩
      rw [hnil] at hmem
      exact absurd hmem (List.not_mem_nil f)
  · intro hall
    have hnil : files.filter (fun f => !f.validJson) = [] := by
      rw [List.filter_eq_nil_iff]
      intro a ha
      simp [hall a ha]
    rw [hnil]
    simp
  · rintro ⟨f, hf, hfv⟩
    have hmem : f ∈ files.filter (fun f => !f.validJson) :=
      List.mem_filter.mpr ⟨hf, by simp [hfv]⟩
    have hne : files.filter (fun f => !f.validJson) ≠ [] := by
      intro hnil
      rw [hnil] at hmem
      exact absurd hmem (List.not_mem_nil f)
    have hempf : ((files.filter (fun f => !f.validJson)).map LocFile.path).isEmpty = false := by
      rw [Bool.eq_false_iff, Ne, List.isEmpty_iff, List.map_eq_nil_iff]
      exact hne
    rw [hempf]
    simp

/-- Witness for C4: one malformed file among valid ones is skipped but
reported alone in the final error, while both valid files are processed. -/
theorem claim_C4_witness :
    (dist_localization_data [⟨"RU/a.json", true⟩, ⟨"RU/b.json", false⟩,
        ⟨"RU/c.json", true⟩]).1 = ["RU/a.json", "RU/c.json"] ∧
    (dist_localization_data [⟨"RU/a.json", true⟩, ⟨"RU/b.json", false⟩,
        ⟨"RU/c.json", true⟩]).2 = some ("Invalid JSON files: RU/b.json") := by
  have h := claim_C4 [⟨"RU/a.json", true⟩, ⟨"RU/b.json", false⟩, ⟨"RU/c.json", true⟩]
  constructor
  · rw [h.2.1]; rfl
  · rw [h.2.2 ⟨⟨"RU/b.json", false⟩, by decide, rfl⟩]; rfl

/-- Counterexample to C9 as stated: all three environment values are
present (none is absent), yet `get_env_variables` raises instead of
returning them unchanged, because an empty string is falsy in `all`. -/
theorem claim_C9_counterexample :
    (c9_env ("GITHUB_TOKEN") ≠ none ∧ c9_env ("REPO_OWNER") ≠ none ∧
      c9_env ("REPO_NAME") ≠ none) ∧
    get_env_variables c9_env ≠ Except.ok ("", "owner", "name") ∧
    get_env_variables c9_env = Except.error
      ("One or more environment variables (GITHUB_TOKEN, REPO_OWNER, REPO_NAME) are missing.") := by
  refine ⟨⟨?_, ?_, ?_⟩, ?_, rfl⟩
  · intro h; exact Option.noConfusion h
  · intro h; exact Option.noConfusion h
  · intro h; exact Option.noConfusion h
  · intro h
    rw [show get_env_variables c9_env = Except.error
        ("One or more environment variables (GITHUB_TOKEN, REPO_OWNER, REPO_NAME) are missing.")
      from rfl] at h
    exact Except.noConfusion h

/-- C9 (amended). `get_env_variables` fails, before any remote call, if
and only if any of the three required environment values is absent or
empty (Python truthiness); the raised error names all three
configuration variables; when all three are present and non-empty it
returns them unchanged. -/
theorem claim_C9 (env : String → Option String) :
    ((∃ msg, get_env_variables env = Except.error msg) ↔
      (pyTruthy (env ("GITHUB_TOKEN")) = false ∨ pyTruthy (env ("REPO_OWNER")) = false ∨
        pyTruthy (env ("REPO_NAME")) = false)) ∧
    (∀ msg, get_env_variables env = Except.error msg →
      msg = "One or more environment variables (GITHUB_TOKEN, REPO_OWNER, REPO_NAME) are missing.") ∧
    (∀ t o n : String, env ("GITHUB_TOKEN") = some t → env ("REPO_OWNER") = some o →
      env ("REPO_NAME") = some n → t ≠ "" → o ≠ "" → n ≠ "" →
      get_env_variables env = Except.ok (t, o, n)) := by
  refine ⟨⟨?_, ?_⟩, ?_, ?_⟩
  · rintro ⟨msg, hmsg⟩
    by_contra hcon
    push_neg at hcon
    obtain ⟨h1, h2, h3⟩ := hcon
    have b1 : pyTruthy (env ("GITHUB_TOKEN")) = true := by
      revert h1; cases pyTruthy (env ("GITHUB_TOKEN")) <;> simp
    have b2 : pyTruthy (env ("REPO_OWNER")) = true := by
      revert h2; cases pyTruthy (env ("REPO_OWNER")) <;> simp
    have b3 : pyTruthy (env ("REPO_NAME")) = true := by
      revert h3; cases pyTruthy (env ("REPO_NAME")) <;> simp
    rw [get_env_variables] at hmsg
    simp [b1, b2, b3] at hmsg
  · intro h
    have hb : (pyTruthy (env ("GITHUB_TOKEN")) && pyTruthy (env ("REPO_OWNER")) &&
        pyTruthy (env ("REPO_NAME"))) = false := by
      rcases h with h | h | h <;> simp [h]
    refine ⟨"One or more environment variables (GITHUB_TOKEN, REPO_OWNER, REPO_NAME) are missing.", ?_⟩
    rw [get_env_variables]
    simp [hb]
  · intro msg hmsg
    rw [get_env_variables] at hmsg
    by_cases hb : (pyTruthy (env ("GITHUB_TOKEN")) && pyTruthy (env ("REPO_OWNER")) &&
        pyTruthy (env ("REPO_NAME"))) = true
    · simp [hb] at hmsg
    · rw [Bool.not_eq_true] at hb
      simp only [hb, Bool.false_eq_true, if_false] at hmsg
      exact (Except.error.inj hmsg).symm
  · intro t o n h1 h2 h3 hn1 hn2 hn3
    have e1 : t.isEmpty = false := by
      rw [Bool.eq_false_iff, Ne, String.isEmpty_iff]; exact hn1
    have e2 : o.isEmpty = false := by
      rw [Bool.eq_false_iff, Ne, String.isEmpty_iff]; exact hn2
    have e3 : n.isEmpty = false := by
      rw [Bool.eq_false_iff, Ne, String.isEmpty_iff]; exact hn3
    have p1 : pyTruthy (some t) = true := by simp [pyTruthy, e1]
    have p2 : pyTruthy (some o) = true := by simp [pyTruthy, e2]
    have p3 : pyTruthy (some n) = true := by simp [pyTruthy, e3]
    rw [get_env_variables]
    simp [h1, h2, h3, p1, p2, p3]

/-- Witness for C9 (amended) on a fully-populated environment. -/
theorem claim_C9_witness :
    get_env_variables (fun s =>
      if s == "GITHUB_TOKEN" then some ("tok")
      else if s == "REPO_OWNER" then some ("owner")
      else if s == "REPO_NAME" then some ("name")
      else none) = Except.ok ("tok", "owner", "name") :=
  (claim_C9 _).2.2 ("tok") ("owner") ("name") rfl rfl rfl
    (by decide) (by decide) (by decide)

/-- C1 (code bug). For a file in the keyword-files set, the bytes written
into the output tree are the keyword-converted re-serialized document and
differ from the source bytes; yet the checksum recorded in the manifest
is computed by `get_file_checksum(file)` on the source path, i.e. over
the source bytes, not over the written bytes — so the recorded checksum
is not the checksum of the copied (post-transformation) bytes, contrary
to the stated invariant. -/
theorem claim_C1 :
    c1_run.1 ≠ c1_src ∧ c1_run.2.checksum = c1_src ∧ c1_run.2.checksum ≠ c1_run.1 := by
  refine ⟨by decide, rfl, by decide⟩
